import Mathlib

/-!
Verification development for the design-to-code repository.

The repository converts a tree of design-tool nodes (Figma export) into
React / Vue / Svelte component source text plus an index (manifest) file.
Two implementations coexist in the repository:

* `src/converter.ts` (free functions, entry point `convertFigmaToCode`),
  embedded below in namespace `Converter`;
* `src/index.ts` (class `DesignToCode`), embedded below in namespace
  `DesignToCode`.

Strings are modelled as `Str := List Char` (JS strings); design-space
numbers (bounding boxes, font sizes, color channels) are modelled as `ℚ`.
`Math.round` is JS round-half-toward-plus-infinity, modelled by
`jsRound q = ⌊q + 1/2⌋`, which agrees with JS on all rationals.
Case mapping (`toLowerCase` / `toUpperCase`) is modelled on the ASCII
range and as the identity elsewhere; the JS `\s` and `\w` character
classes are modelled on their ASCII members.  Non-integral number
printing approximates JS float formatting but every theorem below only
evaluates it on integral values, where the two agree exactly.
-/

set_option linter.unusedVariables false

/-- Characters of a JS string, as a list of Unicode scalar values. -/
abbrev Str := List Char

namespace D2C

/-- ASCII lowercase letter. -/
def isLowerC (c : Char) : Bool := 97 ≤ c.toNat && c.toNat ≤ 122

/-- ASCII uppercase letter. -/
def isUpperC (c : Char) : Bool := 65 ≤ c.toNat && c.toNat ≤ 90

/-- ASCII digit. -/
def isDigitC (c : Char) : Bool := 48 ≤ c.toNat && c.toNat ≤ 57

/-- ASCII alphanumeric: the class `[a-zA-Z0-9]`. -/
def isAlnumC (c : Char) : Bool := isLowerC c || isUpperC c || isDigitC c

/-- The JS regex class `\s`, restricted to its ASCII members
(space, tab, line feed, vertical tab, form feed, carriage return). -/
def isWsC (c : Char) : Bool :=
  c.toNat = 32 || c.toNat = 9 || c.toNat = 10 || c.toNat = 11 ||
    c.toNat = 12 || c.toNat = 13

/-- The splitting class `[\s\-_]` used by `toPascalCase`. -/
def isSepC (c : Char) : Bool := isWsC c || c.toNat = 45 || c.toNat = 95

/-- The JS regex class `\w`, restricted to its ASCII members. -/
def isWordC (c : Char) : Bool := isAlnumC c || c.toNat = 95

/-- The slug class `[a-z0-9-]` kept by `sanitizeFileName`. -/
def isSlugC (c : Char) : Bool := isLowerC c || isDigitC c || c.toNat = 45

/-- JS `String.prototype.toUpperCase`, ASCII fragment. -/
def toUpperC (c : Char) : Char :=
  if isLowerC c then Char.ofNat (c.toNat - 32) else c

/-- JS `String.prototype.toLowerCase`, ASCII fragment. -/
def toLowerC (c : Char) : Char :=
  if isUpperC c then Char.ofNat (c.toNat + 32) else c

/-- JS `Math.round`: round half toward positive infinity. -/
def jsRound (q : ℚ) : ℤ := ⌊q + 1 / 2⌋

/-- Decimal digits, fuel-driven (the fuel only bounds the recursion
depth; any fuel above the digit count gives the same result). -/
def natDecAux : ℕ → ℕ → Str
  | 0, _ => []
  | fuel + 1, n =>
    if n < 10 then [Char.ofNat (48 + n)]
    else natDecAux fuel (n / 10) ++ [Char.ofNat (48 + n % 10)]

/-- Decimal digits of a natural number, most significant first
(JS `Number.prototype.toString` on naturals). -/
def natDec (n : ℕ) : Str := natDecAux (n + 1) n

/-- Decimal rendering of an integer, as JS renders integral numbers. -/
def intDec (i : ℤ) : Str :=
  if i < 0 then Char.ofNat 45 :: natDec i.natAbs else natDec i.natAbs

/-- One hexadecimal digit, lowercase (as in JS `toString(16)`). -/
def hexDigit (n : ℕ) : Char :=
  if n < 10 then Char.ofNat (48 + n) else Char.ofNat (87 + n)

/-- Hexadecimal digits, fuel-driven (any fuel above the digit count
gives the same result). -/
def natHexAux : ℕ → ℕ → Str
  | 0, _ => []
  | fuel + 1, n =>
    if n < 16 then [hexDigit n]
    else natHexAux fuel (n / 16) ++ [hexDigit (n % 16)]

/-- Hexadecimal digits of a natural number, most significant first
(JS `Number.prototype.toString(16)` on naturals; lowercase). -/
def natHex (n : ℕ) : Str := natHexAux (n + 1) n

/-- Hexadecimal rendering of an integer (JS `toString(16)`). -/
def intHex (i : ℤ) : Str :=
  if i < 0 then Char.ofNat 45 :: natHex i.natAbs else natHex i.natAbs

/-- Fractional decimal digits of `0 ≤ frac < 1`, up to `fuel` digits. -/
def fracDigits : ℕ → ℚ → Str
  | 0, _ => []
  | fuel + 1, f =>
    if f = 0 then []
    else
      let f10 := f * 10
      Char.ofNat (48 + (⌊f10⌋).toNat % 10) :: fracDigits fuel (f10 - ⌊f10⌋)

/-- JS template interpolation of a non-negative number. -/
def qToStrNN (q : ℚ) : Str :=
  let ip : ℕ := (⌊q⌋).toNat
  let frac : ℚ := q - ⌊q⌋
  if frac = 0 then natDec ip
  else natDec ip ++ [Char.ofNat 46] ++ fracDigits 10 frac

/-- JS template interpolation of a number.  Integral values print with no
decimal point, exactly as in JS; non-integral values print up to ten
fractional decimal digits (an approximation of JS float formatting,
never evaluated by the theorems below). -/
def qToStr (q : ℚ) : Str :=
  if q < 0 then Char.ofNat 45 :: qToStrNN (-q) else qToStrNN q

/-- Prefix test on character lists (used to define substring search). -/
def preL : Str → Str → Bool
  | [], _ => true
  | _ :: _, [] => false
  | a :: as, b :: bs => a = b && preL as bs

/-- Substring test: does `pat` occur contiguously inside `s`?
(JS `String.prototype.includes`.) -/
def hasSub (pat : Str) : Str → Bool
  | [] => preL pat []
  | s@(_ :: t) => preL pat s || hasSub pat t

/-- JS `String.prototype.split` on a regex `[class]+`: splits at each
maximal run of characters of the class.  A leading (trailing) run
produces a leading (trailing) empty segment, and splitting the empty
string yields `[""]`, as in JS. -/
def splitRuns (sep : Char → Bool) : Str → List Str
  | [] => [[]]
  | [c] => if sep c then [[], []] else [[c]]
  | c :: d :: rest =>
    let r := splitRuns sep (d :: rest)
    if sep c then
      if sep d then r else [] :: r
    else
      match r with
      | w :: ws => (c :: w) :: ws
      | [] => [[c]]

/-- JS `Array.prototype.join(sep)` for an array of strings. -/
def joinSep (sep : Str) : List Str → Str
  | [] => []
  | [w] => w
  | w :: x :: ws => w ++ sep ++ joinSep sep (x :: ws)

/-- An RGBA color of a paint descriptor; channels are floats in
design-space, normalized to `[0, 1]` for in-range documents. -/
structure RGBA where
  r : ℚ
  g : ℚ
  b : ℚ
  a : ℚ
deriving DecidableEq

/-- One entry of a node's `fills` / `strokes` array. -/
structure Paint where
  ty : Str
  color : Option RGBA
deriving DecidableEq

/-- A node's `absoluteBoundingBox`. -/
structure BBox where
  x : ℚ
  y : ℚ
  w : ℚ
  h : ℚ
deriving DecidableEq

/-- A design-document node.  This merges the two structurally identical
`FigmaNode` interfaces of the repository (`src/figma-client.ts`, which
carries `textContent`, and `src/index.ts`, which carries `characters`);
fields a given function never reads are simply ignored by it.  All
fields that are optional in the source are `Option`s here; `visible`
is the tri-state `Option Bool`. -/
inductive FigmaNode where
  | mk
    (id : Str)
    (name : Str)
    (ty : Str)
    (visible : Option Bool)
    (bbox : Option BBox)
    (fills : Option (List Paint))
    (textContent : Option Str)
    (characters : Option Str)
    (fontSize : Option ℚ)
    (fontWeight : Option ℚ)
    (children : Option (List FigmaNode))

/-- The node's `id`. -/
def FigmaNode.id : FigmaNode → Str
  | .mk i _ _ _ _ _ _ _ _ _ _ => i

/-- The node's `name`. -/
def FigmaNode.name : FigmaNode → Str
  | .mk _ n _ _ _ _ _ _ _ _ _ => n

/-- The node's `type` tag (`COMPONENT`, `FRAME`, `TEXT`, ...). -/
def FigmaNode.ty : FigmaNode → Str
  | .mk _ _ t _ _ _ _ _ _ _ _ => t

/-- The node's tri-state `visible` flag. -/
def FigmaNode.visible : FigmaNode → Option Bool
  | .mk _ _ _ v _ _ _ _ _ _ _ => v

/-- The node's optional `absoluteBoundingBox`. -/
def FigmaNode.bbox : FigmaNode → Option BBox
  | .mk _ _ _ _ b _ _ _ _ _ _ => b

/-- The node's optional `fills` array. -/
def FigmaNode.fills : FigmaNode → Option (List Paint)
  | .mk _ _ _ _ _ f _ _ _ _ _ => f

/-- The node's optional `textContent` (the `figma-client.ts` field). -/
def FigmaNode.textContent : FigmaNode → Option Str
  | .mk _ _ _ _ _ _ t _ _ _ _ => t

/-- The node's optional `characters` (the `index.ts` field). -/
def FigmaNode.characters : FigmaNode → Option Str
  | .mk _ _ _ _ _ _ _ c _ _ _ => c

/-- The node's optional `fontSize`. -/
def FigmaNode.fontSize : FigmaNode → Option ℚ
  | .mk _ _ _ _ _ _ _ _ s _ _ => s

/-- The node's optional `fontWeight`. -/
def FigmaNode.fontWeight : FigmaNode → Option ℚ
  | .mk _ _ _ _ _ _ _ _ _ w _ => w

/-- The node's optional `children` array. -/
def FigmaNode.children : FigmaNode → Option (List FigmaNode)
  | .mk _ _ _ _ _ _ _ _ _ _ c => c

/-- The same node with its `children` field replaced. -/
def FigmaNode.withChildren : FigmaNode → Option (List FigmaNode) → FigmaNode
  | .mk i n t v b f tc ch s w _, c => .mk i n t v b f tc ch s w c

/-- JS truthiness of `n.visible !== false`: only an explicit
`visible: false` makes a node invisible. -/
def FigmaNode.visibleB (n : FigmaNode) : Bool :=
  match n.visible with
  | some false => false
  | _ => true

/-- The `FigmaFile` structure of `src/figma-client.ts` (the `raw` field,
which the converter never reads, is omitted). -/
structure FigmaFile where
  id : Str
  name : Str
  nodes : List FigmaNode
  componentCount : ℕ
  frameCount : ℕ

/-- The closed set of target dialects: `'react' | 'vue' | 'svelte'`. -/
inductive Fw where
  | react
  | vue
  | svelte
deriving DecidableEq

/-- The string a `Fw` value interpolates as in JS templates. -/
def Fw.str : Fw → Str
  | .react => ("react").data
  | .vue => ("vue").data
  | .svelte => ("svelte").data

end D2C

namespace Converter

open D2C

/-! Embedding of `src/converter.ts` (the free-function implementation
whose entry point is `convertFigmaToCode`). -/

/-- `toPascalCase` of `converter.ts`: split on runs of `[\s\-_]+`,
capitalize the first letter of each token and lowercase the rest,
concatenate, then strip every character outside `[a-zA-Z0-9]`. -/
def capWord : Str → Str
  | [] => []
  | c :: rest => toUpperC c :: rest.map toLowerC

/-- `toPascalCase(str)` from `converter.ts`. -/
def toPascalCase (l : Str) : Str :=
  (((splitRuns isSepC l).map capWord).flatten).filter isAlnumC

/-- `sanitizeFileName(name)` from `converter.ts`: lowercase, replace
whitespace runs by a single hyphen, strip everything outside
`[a-z0-9-]`, truncate to 50 characters. -/
def sanitizeFileName (l : Str) : Str :=
  ((joinSep [Char.ofNat 45] (splitRuns isWsC (l.map toLowerC))).filter
    isSlugC).take 50

/-- Scanner for the regex `/\$\{(\w+)\}/g`: returns the captured
identifiers (the JS code captures the full matches and strips the
leading `${` and trailing `}` with `slice(2, -1)`; this returns the
inner identifiers directly).  On a failed start the regex engine
advances by one character; on a match it continues after the match. -/
def phScanAux : ℕ → Str → List Str
  | 0, _ => []
  | _ + 1, [] => []
  | fuel + 1, c :: rest =>
    if c.toNat = 36 then
      match rest with
      | [] => []
      | d :: rest2 =>
        if d.toNat = 123 then
          let w := rest2.takeWhile isWordC
          match rest2.dropWhile isWordC with
          | e :: rest4 =>
            if e.toNat = 125 && !w.isEmpty then w :: phScanAux fuel rest4
            else phScanAux fuel rest
          | [] => phScanAux fuel rest
        else phScanAux fuel rest
    else phScanAux fuel rest

/-- All `${identifier}` placeholders of a string, in order. -/
def phScan (t : Str) : List Str := phScanAux t.length t

/-- One `Set.prototype.add`: append if not already present (JS `Set`
keeps first-insertion order). -/
def addPh (acc : List Str) (x : Str) : List Str :=
  if x ∈ acc then acc else acc ++ [x]

/-- `extractPropsFromNode(node)` from `converter.ts`: scan the direct
children of kind TEXT whose `textContent` contains `"${"` and collect
the distinct placeholder identifiers in first-seen order. -/
def extractPropsFromNode (n : FigmaNode) : List Str :=
  match n.children with
  | none => []
  | some cs =>
    cs.foldl
      (fun acc c =>
        if c.ty = ("TEXT").data then
          match c.textContent with
          | some t =>
            if hasSub (("$\x7b").data) t then (phScan t).foldl addPh acc
            else acc
          | none => acc
        else acc)
      []

/-- The `dimensions` template fragment shared verbatim by the three
generators: `width: {round(w)}px; height: {round(h)}px;` when the node
has a bounding box, else the empty string. -/
def dims (n : FigmaNode) : Str :=
  match n.bbox with
  | some b =>
    ("width: ").data ++ intDec (jsRound b.w) ++ ("px; height: ").data ++
      intDec (jsRound b.h) ++ ("px;").data
  | none => []

/-- JS `child.textContent || child.name` (empty string is falsy). -/
def textOrName (c : FigmaNode) : Str :=
  match c.textContent with
  | some t => if t.isEmpty then c.name else t
  | none => c.name

/-- The `node.textContent ? `<p>...</p>` : ''` fallback used when a node
has no (or an empty) children array. -/
def textFallback (n : FigmaNode) : Str :=
  match n.textContent with
  | some t =>
    if t.isEmpty then [] else ("<p>").data ++ t ++ ("</p>").data
  | none => []

/-- `generateReactChildren(node)` from `converter.ts`. -/
def generateReactChildren (n : FigmaNode) : Str :=
  match n.children with
  | none => textFallback n
  | some cs =>
    if cs.isEmpty then textFallback n
    else
      joinSep (("\n").data)
        ((cs.filter FigmaNode.visibleB).map fun child =>
          if child.ty = ("TEXT").data then
            ("      <p>").data ++ textOrName child ++ ("</p>").data
          else
            ("      <div>\x7b/* ").data ++ child.name ++ (" */\x7d</div>").data)

/-- `generateVueChildren(node)` from `converter.ts`. -/
def generateVueChildren (n : FigmaNode) : Str :=
  match n.children with
  | none => textFallback n
  | some cs =>
    if cs.isEmpty then textFallback n
    else
      joinSep (("\n").data)
        ((cs.filter FigmaNode.visibleB).map fun child =>
          if child.ty = ("TEXT").data then
            ("    <p>").data ++ textOrName child ++ ("</p>").data
          else
            ("    <div><!-- ").data ++ child.name ++ (" --></div>").data)

/-- `generateSvelteChildren(node)` from `converter.ts`. -/
def generateSvelteChildren (n : FigmaNode) : Str :=
  match n.children with
  | none => textFallback n
  | some cs =>
    if cs.isEmpty then textFallback n
    else
      joinSep (("\n").data)
        ((cs.filter FigmaNode.visibleB).map fun child =>
          if child.ty = ("TEXT").data then
            ("  <p>").data ++ textOrName child ++ ("</p>").data
          else
            ("  <div><!-- ").data ++ child.name ++ (" --></div>").data)

/-- `generateReactComponent(name, node, props)` from `converter.ts`. -/
def generateReactComponent (name : Str) (n : FigmaNode) (props : List Str) :
    Str :=
  let propString : Str :=
    if props.isEmpty then []
    else ("\x7b ").data ++ joinSep ((", ").data) props ++ (" \x7d").data
  ("import React from \x27react\x27;\n\ninterface ").data ++ name ++
    ("Props \x7b\n  ").data ++
    joinSep (("\n  ").data)
      (props.map fun p => p ++ ("?: string | number;").data) ++
    ("\n\x7d\n\nexport const ").data ++ name ++ (": React.FC<").data ++ name ++
    ("Props> = (").data ++ propString ++
    (") => \x7b\n  return (\n    <div style=\x7b\x7b ").data ++ dims n ++
    (" \x7d\x7d>\n      \x7b/* ").data ++ n.name ++
    (" Component */\x7d\n      ").data ++ generateReactChildren n ++
    ("\n    </div>\n  );\n\x7d;\n\nexport default ").data ++ name ++
    (";\n").data

/-- `generateVueComponent(name, node, props)` from `converter.ts`. -/
def generateVueComponent (name : Str) (n : FigmaNode) (props : List Str) :
    Str :=
  let propsSection : Str :=
    if props.isEmpty then []
    else
      ("\n  props: \x7b\n    ").data ++
        joinSep (("\n    ").data) (props.map fun p => p ++ (": String,").data) ++
        ("\n  \x7d,").data
  ("<template>\n  <div style=\"").data ++ dims n ++
    ("\">\n    <!-- ").data ++ n.name ++ (" Component -->\n    ").data ++
    generateVueChildren n ++
    ("\n  </div>\n</template>\n\n<script>\nexport default \x7b\n  name: \x27").data ++
    name ++ ("\x27,").data ++ propsSection ++
    ("\n\x7d;\n</script>\n\n<style scoped>\ndiv \x7b\n  box-sizing: border-box;\n\x7d\n</style>\n").data

/-- `generateSvelteComponent(name, node, props)` from `converter.ts`. -/
def generateSvelteComponent (name : Str) (n : FigmaNode) (props : List Str) :
    Str :=
  let exportProps : Str :=
    joinSep (("\n").data) (props.map fun p => ("export let ").data ++ p ++ (";").data)
  ("<script>\n  ").data ++ exportProps ++
    ("\n</script>\n\n<div style=\"").data ++ dims n ++
    ("\">\n  <!-- ").data ++ n.name ++ (" Component -->\n  ").data ++
    generateSvelteChildren n ++
    ("\n</div>\n\n<style>\n  div \x7b\n    box-sizing: border-box;\n  \x7d\n</style>\n").data

/-- `generateComponentCode(node, framework)` from `converter.ts`. -/
def generateComponentCode (n : FigmaNode) (fw : Fw) : Str :=
  let name := toPascalCase n.name
  let props := extractPropsFromNode n
  match fw with
  | .react => generateReactComponent name n props
  | .vue => generateVueComponent name n props
  | .svelte => generateSvelteComponent name n props

/-- The valid-node filter `n => n.visible !== false && n.name` used by
`convertFigmaToCode` and `generateIndexFile`. -/
def validB (n : FigmaNode) : Bool :=
  n.visibleB && !n.name.isEmpty

/-- `generateIndexFile(nodes, framework)` from `converter.ts`. -/
def generateIndexFile (nodes : List FigmaNode) (fw : Fw) : Str :=
  let imports : Str :=
    joinSep (("\n").data)
      ((nodes.filter validB).map fun node =>
        ("export \x7b default as ").data ++ toPascalCase node.name ++
          (" \x7d from \x27./").data ++ sanitizeFileName node.name ++
          ("\x27;").data)
  if fw = .vue then
    ("// Vue Components\n").data ++ imports ++ ("\n").data
  else
    ("// ").data ++ fw.str ++ (" Components\n").data ++ imports ++ ("\n").data

/-- Assignment `obj[k] = v` on a JS object modelled as an ordered
association list: an existing key keeps its position and gets the new
value, a fresh key is appended. -/
def recordSet : List (Str × Str) → Str → Str → List (Str × Str)
  | [], k, v => [(k, v)]
  | (k', v') :: rest, k, v =>
    if k' = k then (k, v) :: rest else (k', v') :: recordSet rest k v

/-- The `ConversionResult` of `converter.ts`: the `components` record
(file name → source text, in JS object key order) and the index text. -/
structure ConversionResult where
  components : List (Str × Str)
  index : Str
deriving DecidableEq

/-- `convertFigmaToCode(figmaFile, framework)` from `converter.ts`
(async in the source but with a fully synchronous, effect-free body). -/
def convertFigmaToCode (f : FigmaFile) (fw : Fw) : ConversionResult :=
  let validNodes := f.nodes.filter validB
  { components :=
      validNodes.foldl
        (fun acc node =>
          recordSet acc (sanitizeFileName node.name ++ (".tsx").data)
            (generateComponentCode node fw))
        []
  , index := generateIndexFile validNodes fw }

end Converter

namespace DesignToCode

open D2C

/-! Embedding of `src/index.ts` (the `DesignToCode` class).  The class
threads a `ComponentConfig` through `this.config`; here every method
takes the configuration explicitly. -/

/-- The resolved `ComponentConfig` of `index.ts`. -/
structure ComponentConfig where
  framework : Fw
  outputDir : Str
  typescript : Bool
  tailwind : Bool
  includeStyles : Bool

/-- `sanitizeName(name)`: strip every character outside `[a-zA-Z0-9]`
(no case change, no splitting). -/
def sanitizeName (l : Str) : Str := l.filter isAlnumC

/-- `toPascalCase(str)` of `index.ts`: like the converter's but with no
final strip of non-alphanumeric characters. -/
def toPascalCase (l : Str) : Str :=
  ((splitRuns isSepC l).map Converter.capWord).flatten

/-- `toKebabCase(str)`: insert a hyphen before every ASCII uppercase
letter, lowercase everything, then drop a single leading hyphen. -/
def toKebabCase (l : Str) : Str :=
  let expanded : Str :=
    l.foldr (fun c acc => (if isUpperC c then [Char.ofNat 45, c] else [c]) ++ acc) []
  let lowered := expanded.map toLowerC
  match lowered with
  | c :: rest => if c.toNat = 45 then rest else lowered
  | [] => []

/-- The property record `extractProps` builds (`Record<string, any>` in
the source, with a fixed set of possible keys; the JS key `children`,
which holds the child count, is named `childrenCount` here to avoid
clashing with the node field of the same name). -/
structure DTCProps where
  id : Str
  name : Str
  ty : Str
  childrenCount : ℕ
  dimensions : Option (ℚ × ℚ)
  backgroundColor : Option Str
  text : Option Str
  fontSize : Option ℚ
  fontWeight : Option ℚ

/-- One color channel to two lowercase hex digits:
`Math.round(n * 255).toString(16)`, left-padded to width 2. -/
def channelHex (n : ℚ) : Str :=
  let h := intHex (jsRound (n * 255))
  if h.length = 1 then Char.ofNat 48 :: h else h

/-- `colorToHex(fill)` of `index.ts`: `#000000` for a non-SOLID or
colorless first fill, else the `#rrggbb` of the rounded channels,
uppercased. -/
def colorToHex (fill : Paint) : Str :=
  if fill.ty = ("SOLID").data then
    match fill.color with
    | some col =>
      (Char.ofNat 35 ::
        (channelHex col.r ++ channelHex col.g ++ channelHex col.b)).map toUpperC
    | none => ("#000000").data
  else ("#000000").data

/-- JS truthiness for an optional string field. -/
def strTruthy : Option Str → Bool
  | some t => !t.isEmpty
  | none => false

/-- `extractProps(node)` of `index.ts`.  `fontSize`/`fontWeight` apply
the `|| 14` / `|| 400` defaults (JS `||`: `0` falls back too) and are
set only when `node.characters` is truthy. -/
def extractProps (n : FigmaNode) : DTCProps :=
  { id := n.id
  , name := sanitizeName n.name
  , ty := n.ty
  , childrenCount := match n.children with | some l => l.length | none => 0
  , dimensions := n.bbox.map fun b => (b.w, b.h)
  , backgroundColor :=
      match n.fills with
      | some (f :: _) => some (colorToHex f)
      | _ => none
  , text := match n.characters with
      | some t => if t.isEmpty then none else some t
      | none => none
  , fontSize :=
      if strTruthy n.characters then
        some (match n.fontSize with
          | some v => if v = 0 then 14 else v
          | none => 14)
      else none
  , fontWeight :=
      if strTruthy n.characters then
        some (match n.fontWeight with
          | some v => if v = 0 then 400 else v
          | none => 400)
      else none }

/-- `generateTailwindClasses(props)` of `index.ts`.  Note the font-size
branch tests `Math.round(fontSize / 4) > 16`, not `fontSize > 16`. -/
def generateTailwindClasses (p : DTCProps) : Str :=
  let dimCls : List Str :=
    match p.dimensions with
    | some (w, h) =>
      [("w-[").data ++ intDec (jsRound w) ++ ("px]").data,
       ("h-[").data ++ intDec (jsRound h) ++ ("px]").data]
    | none => []
  let bgCls : List Str :=
    match p.backgroundColor with
    | some hex => if hex.isEmpty then [] else [("bg-[").data ++ hex ++ ("]").data]
    | none => []
  let fsCls : List Str :=
    match p.fontSize with
    | some v =>
      if v = 0 then []
      else
        let size := jsRound (v / 4)
        [("text-").data ++
          (if 16 < size then ("[").data ++ qToStr v ++ ("px]").data
           else intDec size)]
    | none => []
  joinSep ((" ").data) (dimCls ++ bgCls ++ fsCls)

/-- `generateCSSClasses(props)` of `index.ts` (a fixed class name). -/
def generateCSSClasses (p : DTCProps) : Str := ("component-auto-generated").data

/-- `styleObjectToCSS(props)` of `index.ts`: the ordered key/value style
map (JS object insertion order). -/
def styleObjectToCSS (p : DTCProps) : List (Str × Str) :=
  (match p.dimensions with
    | some (w, h) =>
      [((("width").data : Str), qToStr w ++ ("px").data),
       ((("height").data : Str), qToStr h ++ ("px").data)]
    | none => []) ++
  (match p.backgroundColor with
    | some hex =>
      if hex.isEmpty then [] else [((("background-color").data : Str), hex)]
    | none => []) ++
  (match p.fontSize with
    | some v =>
      if v = 0 then [] else [((("font-size").data : Str), qToStr v ++ ("px").data)]
    | none => []) ++
  (match p.fontWeight with
    | some v => if v = 0 then [] else [((("font-weight").data : Str), qToStr v)]
    | none => [])

/-- `generateCSSContent(props)` of `index.ts`. -/
def generateCSSContent (p : DTCProps) : Str :=
  joinSep (("\n").data)
    ((styleObjectToCSS p).map fun kv =>
      ("  ").data ++ kv.1 ++ (": ").data ++ kv.2 ++ (";").data)

/-- `generateReactComponent(node, props)` of `index.ts`. -/
def generateReactComponent (cfg : ComponentConfig) (n : FigmaNode)
    (p : DTCProps) : Str :=
  let componentName := toPascalCase p.name
  let isTS := cfg.typescript
  let typeAnnotation : Str := if isTS then (": React.FC<Props>").data else []
  let propsInterface : Str :=
    if isTS then
      ("\ninterface Props \x7b\n  children?: React.ReactNode;\n  className?: string;\n\x7d\n").data
    else []
  let styles :=
    if cfg.tailwind then generateTailwindClasses p else generateCSSClasses p
  ("import React").data ++ (if isTS then (", \x7b FC \x7d").data else []) ++
    (" from \x27react\x27;\n").data ++
    (if cfg.includeStyles && !cfg.tailwind then
      ("import styles from \x27./").data ++ componentName ++
        (".module.css\x27;\n").data
     else []) ++
    ("\n\n").data ++ propsInterface ++
    ("\n/**\n * ").data ++ componentName ++
    (" Component\n * Auto-generated from Figma design\n * Original Figma ID: ").data ++
    p.id ++
    ("\n */\nconst ").data ++ componentName ++ typeAnnotation ++
    (" = (\x7b children, className = \x27\x27 \x7d) => \x7b\n  return (\n    <div\n      className=\"").data ++
    styles ++ (" $\x7bclassName\x7d\"\n      role=\"presentation\"\n      data-testid=\"").data ++
    toKebabCase componentName ++
    ("\"\n    >\n      \x7bchildren\x7d\n    </div>\n  );\n\x7d;\n\nexport default ").data ++
    componentName ++ (";\nexport \x7b ").data ++ componentName ++ (" \x7d;\n").data

/-- `generateVueComponent(node, props)` of `index.ts`. -/
def generateVueComponent (cfg : ComponentConfig) (n : FigmaNode)
    (p : DTCProps) : Str :=
  let componentName := toPascalCase p.name
  let styles :=
    if cfg.tailwind then generateTailwindClasses p else generateCSSClasses p
  let scriptBody : Str :=
    if cfg.typescript then
      ("\ninterface Props \x7b\n  className?: string;\n\x7d\n\nexport default \x7b\n  name: \x27").data ++
        componentName ++
        ("\x27,\n  props: \x7b\n    className: \x7b\n      type: String,\n      default: \x27\x27\n    \x7d\n  \x7d,\n  data() \x7b\n    return \x7b\n      testId: \x27").data ++
        toKebabCase componentName ++ ("\x27\n    \x7d;\n  \x7d\n\x7d;\n").data
    else
      ("\nexport default \x7b\n  name: \x27").data ++ componentName ++
        ("\x27,\n  props: \x7b\n    className: \x7b\n      type: String,\n      default: \x27\x27\n    \x7d\n  \x7d,\n  data() \x7b\n    return \x7b\n      testId: \x27").data ++
        toKebabCase componentName ++ ("\x27\n    \x7d;\n  \x7d\n\x7d;\n").data
  ("<template>\n  <div\n    :class=\"[\x27").data ++ styles ++
    ("\x27, className]\"\n    role=\"presentation\"\n    :data-testid=\"testId\"\n  >\n    <slot></slot>\n  </div>\n</template>\n\n<script").data ++
    (if cfg.typescript then (" lang=\"ts\"").data else []) ++ (">\n").data ++
    scriptBody ++
    ("\n</script>\n\n<style").data ++
    (if cfg.tailwind then [] else (" scoped").data) ++ (">\n").data ++
    (if !cfg.tailwind then generateCSSContent p
     else ("/* Tailwind CSS is enabled */").data) ++
    ("\n</style>\n").data

/-- `generateSvelteComponent(node, props)` of `index.ts`.  The style
block joins `Object.entries(...)` directly, so each entry prints as
`key,value` (the JS array-to-string comma), faithfully preserved. -/
def generateSvelteComponent (cfg : ComponentConfig) (n : FigmaNode)
    (p : DTCProps) : Str :=
  let componentName := toPascalCase p.name
  let styles :=
    if cfg.tailwind then generateTailwindClasses p else generateCSSClasses p
  let tsBlock : Str :=
    if cfg.typescript then
      ("\n  interface Props \x7b\n    class?: string;\n  \x7d\n  ").data
    else []
  let styleInner : Str :=
    if !cfg.tailwind then
      ("\n  div \x7b\n    ").data ++
        joinSep (("\n    ").data)
          ((styleObjectToCSS p).map fun kv => kv.1 ++ (",").data ++ kv.2) ++
        ("\n  \x7d\n  ").data
    else ("/* Tailwind CSS is enabled */").data
  ("<script").data ++ (if cfg.typescript then (" lang=\"ts\"").data else []) ++
    (">\n  let className = \x27\x27;\n  export \x7b className as class \x7d;\n  \n  ").data ++
    tsBlock ++
    ("\n\n  const testId = \x27").data ++ toKebabCase componentName ++
    ("\x27;\n</script>\n\n<div\n  class=\"").data ++ styles ++
    (" \x7bclassName\x7d\"\n  role=\"presentation\"\n  data-testid=\"\x7btestId\x7d\"\n>\n  <slot></slot>\n</div>\n\n<style").data ++
    (if !cfg.tailwind then (" scoped").data else []) ++ (">\n  ").data ++
    styleInner ++
    ("\n</style>\n").data

/-- The output pair of `generateComponent`. -/
structure GeneratedComponent where
  code : Str
  filename : Str
deriving DecidableEq

/-- `generateComponent(node)` of `index.ts`: extension `tsx`/`jsx` by
the `typescript` flag for react, fixed `vue` / `svelte` otherwise;
file name `{PascalCase(sanitized name)}.{ext}`. -/
def generateComponent (cfg : ComponentConfig) (n : FigmaNode) :
    GeneratedComponent :=
  let p := extractProps n
  let componentName := toPascalCase p.name
  let codeExt : Str × Str :=
    match cfg.framework with
    | .react =>
      (generateReactComponent cfg n p,
        if cfg.typescript then ("tsx").data else ("jsx").data)
    | .vue => (generateVueComponent cfg n p, ("vue").data)
    | .svelte => (generateSvelteComponent cfg n p, ("svelte").data)
  { code := codeExt.1
  , filename := componentName ++ (".").data ++ codeExt.2 }

/-- `processDesign(nodes)` of `index.ts`. -/
def processDesign (cfg : ComponentConfig) (nodes : List FigmaNode) :
    List GeneratedComponent :=
  nodes.map (generateComponent cfg)

end DesignToCode

namespace D2C

/-! Concrete sample inputs used by witnesses and counterexamples. -/

/-- A TEXT child whose content carries the `${userName}` placeholder. -/
def helloChild : FigmaNode :=
  .mk (("t1").data) (("Greeting").data) (("TEXT").data) none none none
    (some (("Hello, $\x7buserName\x7d").data)) none none none none

/-- A COMPONENT node owning `helloChild`. -/
def cardNode : FigmaNode :=
  .mk (("c1").data) (("Card").data) (("COMPONENT").data) none none none
    none none none none (some [helloChild])

/-- A plain visible COMPONENT named `Button`. -/
def buttonNode : FigmaNode :=
  .mk (("b1").data) (("Button").data) (("COMPONENT").data) none none none
    none none none none none

/-- A visible COMPONENT named `Button!!` (same slug as `Button`). -/
def buttonBangNode : FigmaNode :=
  .mk (("b2").data) (("Button!!").data) (("COMPONENT").data) none none none
    none none none none none

/-- A visible COMPONENT with the empty name. -/
def emptyNameNode : FigmaNode :=
  .mk (("e1").data) [] (("COMPONENT").data) none none none
    none none none none none

/-- A child with `visible: false`. -/
def hiddenChild : FigmaNode :=
  .mk (("h1").data) (("Secret").data) (("RECTANGLE").data) (some false) none
    none (some (("classified").data)) none none none none

/-- A visible TEXT child. -/
def shownChild : FigmaNode :=
  .mk (("s1").data) (("Label").data) (("TEXT").data) none none none
    (some (("Click me").data)) none none none none

/-- A `FigmaFile` holding the given flattened node list. -/
def sampleFile (nodes : List FigmaNode) : FigmaFile :=
  { id := ("f1").data
  , name := ("Design").data
  , nodes := nodes
  , componentCount := 0
  , frameCount := 0 }

/-- The SOLID paint of the end-to-end scenario: `r 0.4, g 0.4, b 0.94`. -/
def solidPaint : Paint :=
  { ty := ("SOLID").data, color := some { r := 2/5, g := 2/5, b := 47/50, a := 1 } }

/-- A first fill that is not SOLID and carries no color. -/
def imagePaint : Paint :=
  { ty := ("IMAGE").data, color := none }

/-- A node whose first fill is `solidPaint`. -/
def solidNode : FigmaNode :=
  .mk (("n1").data) (("Card").data) (("FRAME").data) none none
    (some [solidPaint]) none none none none none

/-- A node whose first fill is `imagePaint`. -/
def imageNode : FigmaNode :=
  .mk (("n2").data) (("Photo").data) (("FRAME").data) none none
    (some [imagePaint]) none none none none none

/-- A property record carrying only `fontSize: 20`. -/
def fs20Props : DesignToCode.DTCProps :=
  { id := [], name := [], ty := [], childrenCount := 0, dimensions := none
  , backgroundColor := none, text := none, fontSize := some 20
  , fontWeight := none }

/-- A `ComponentConfig` selecting the given framework, with TypeScript
and Tailwind on. -/
def cfgOf (fw : Fw) : DesignToCode.ComponentConfig :=
  { framework := fw, outputDir := ("./components").data, typescript := true
  , tailwind := true, includeStyles := true }

/-- Split a string at every line-feed character (for reasoning about the
line structure of generated text). -/
def splitNl : Str → List Str
  | [] => [[]]
  | c :: rest =>
    if c.toNat = 10 then [] :: splitNl rest
    else
      match splitNl rest with
      | w :: ws => (c :: w) :: ws
      | [] => [[c]]

/-- The re-export statement `generateIndexFile` emits for one node. -/
def exportLine (n : FigmaNode) : Str :=
  ("export \x7b default as ").data ++ Converter.toPascalCase n.name ++
    (" \x7d from \x27./").data ++ Converter.sanitizeFileName n.name ++
    ("\x27;").data

/-- The header line of the index file for a framework. -/
def indexHeader (fw : Fw) : Str :=
  if fw = .vue then ("// Vue Components").data
  else ("// ").data ++ fw.str ++ (" Components").data

/-- Claim-side rendering of `0 ≤ m ≤ 255` as exactly two uppercase
hexadecimal digits (the `round(channel*255)` byte of a color). -/
def hexPairU (m : ℕ) : Str :=
  if m < 16 then [Char.ofNat 48, toUpperC (hexDigit m)]
  else [toUpperC (hexDigit (m / 16)), toUpperC (hexDigit (m % 16))]

/-- The loop body of `extractPropsFromNode`: fold one child into the
placeholder set. -/
def extractStep : List Str → FigmaNode → List Str := fun acc c =>
  if c.ty = ("TEXT").data then
    match c.textContent with
    | some t =>
      if hasSub (("$\x7b").data) t then
        (Converter.phScan t).foldl Converter.addPh acc
      else acc
    | none => acc
  else acc

/-- A child that contributes the placeholder `u`: a TEXT child whose
`textContent` passes the `includes("${")` guard and whose placeholder
scan produces `u`. -/
def trig (u : Str) (c : FigmaNode) : Prop :=
  c.ty = ("TEXT").data ∧ ∃ t, c.textContent = some t ∧
    hasSub (("$\x7b").data) t = true ∧ u ∈ Converter.phScan t

end D2C

namespace D2C

/-! General-purpose lemmas about the string helpers. -/

theorem preL_append (p r : Str) : preL p (p ++ r) = true := by
  induction p with
  | nil => rfl
  | cons a as ih => simp [preL, ih]

theorem hasSub_append (pat a b : Str) : hasSub pat (a ++ pat ++ b) = true := by
  induction a with
  | nil =>
    cases hpb : pat ++ b with
    | nil =>
      have hp : pat = [] := by
        cases pat with
        | nil => rfl
        | cons x xs => simp at hpb
      have hb : b = [] := by
        rw [hp] at hpb; simpa using hpb
      simp [hp, hb, hasSub, preL]
    | cons c t =>
      simp only [List.nil_append, hpb, hasSub]
      rw [← hpb, preL_append]
      rfl
  | cons c cs ih =>
    have he : (c :: cs) ++ pat ++ b = c :: (cs ++ pat ++ b) := by simp
    rw [he]
    simp only [hasSub, ih, Bool.or_true]

/-- Substring occurrence from an explicit decomposition. -/
theorem hasSub_of_decomp (pat s a b : Str) (h : s = a ++ pat ++ b) :
    hasSub pat s = true := by
  subst h; exact hasSub_append pat a b

theorem splitRuns_ne_nil (sep : Char → Bool) (l : Str) :
    splitRuns sep l ≠ [] := by
  match l with
  | [] => simp [splitRuns]
  | [c] =>
    by_cases h : sep c = true <;> simp [splitRuns, h]
  | c :: d :: rest =>
    simp only [splitRuns]
    by_cases hc : sep c = true
    · by_cases hd : sep d = true
      · simpa [hc, hd] using splitRuns_ne_nil sep (d :: rest)
      · simp [hc, hd]
    · cases hr : splitRuns sep (d :: rest) <;> simp [hc, hr]

/-- A character not of the splitting class ends up inside one of the
segments produced by `splitRuns`. -/
theorem mem_splitRuns_of_mem (sep : Char → Bool) (l : Str) (c : Char)
    (hm : c ∈ l) (hc : sep c = false) :
    ∃ w ∈ splitRuns sep l, c ∈ w := by
  match l with
  | [] => simp at hm
  | [x] =>
    rcases List.mem_singleton.mp hm with rfl
    simp [splitRuns, hc]
  | x :: d :: rest =>
    simp only [splitRuns]
    by_cases hx : sep x = true
    · have hcx : c ≠ x := fun h => by rw [h] at hc; rw [hx] at hc; cases hc
      have hm' : c ∈ d :: rest := by
        cases hm with
        | head => exact absurd rfl hcx
        | tail _ h => exact h
      obtain ⟨w, hw, hcw⟩ := mem_splitRuns_of_mem sep (d :: rest) c hm' hc
      by_cases hd : sep d = true
      · exact ⟨w, by simp [hx, hd, hw], hcw⟩
      · exact ⟨w, by simp [hx, hd]; right; exact hw, hcw⟩
    · simp only [hx]
      cases hm with
      | head =>
        cases hr : splitRuns sep (d :: rest) with
        | nil => exact ⟨[c], by simp, by simp⟩
        | cons w ws => exact ⟨c :: w, by simp, by simp⟩
      | tail _ hm' =>
        obtain ⟨w, hw, hcw⟩ := mem_splitRuns_of_mem sep (d :: rest) c hm' hc
        cases hr : splitRuns sep (d :: rest) with
        | nil => rw [hr] at hw; simp at hw
        | cons w' ws =>
          rw [hr] at hw
          cases hw with
          | head => exact ⟨x :: w, by simp, List.mem_cons_of_mem x hcw⟩
          | tail _ h => exact ⟨w, by simp; right; exact h, hcw⟩

/-- A character of any segment appears in the `joinSep` of the segments. -/
theorem mem_joinSep_of_mem (sep : Str) (ws : List Str) (w : Str) (c : Char)
    (hw : w ∈ ws) (hc : c ∈ w) : c ∈ joinSep sep ws := by
  match ws with
  | [] => simp at hw
  | [v] =>
    rcases List.mem_singleton.mp hw with rfl
    simpa [joinSep] using hc
  | v :: x :: rest =>
    simp only [joinSep]
    cases hw with
    | head => simp [hc]
    | tail _ h =>
      have := mem_joinSep_of_mem sep (x :: rest) w c h hc
      simp [this]

@[simp] theorem FigmaNode.children_withChildren (n : FigmaNode)
    (o : Option (List FigmaNode)) : (n.withChildren o).children = o := by
  cases n; rfl

@[simp] theorem FigmaNode.textContent_withChildren (n : FigmaNode)
    (o : Option (List FigmaNode)) :
    (n.withChildren o).textContent = n.textContent := by
  cases n; rfl

@[simp] theorem FigmaNode.name_withChildren (n : FigmaNode)
    (o : Option (List FigmaNode)) : (n.withChildren o).name = n.name := by
  cases n; rfl

end D2C

open D2C

/-! Lemmas about `convertFigmaToCode`'s components record. -/

theorem recordSet_ne_nil (acc : List (Str × Str)) (k v : Str) :
    Converter.recordSet acc k v ≠ [] := by
  cases acc with
  | nil => simp [Converter.recordSet]
  | cons p rest =>
    cases p
    simp only [Converter.recordSet]
    split <;> simp

theorem foldl_recordSet_ne_nil (fw : Fw) (l : List FigmaNode)
    (acc : List (Str × Str)) (h : acc ≠ [] ∨ l ≠ []) :
    l.foldl
      (fun acc node =>
        Converter.recordSet acc
          (Converter.sanitizeFileName node.name ++ (".tsx").data)
          (Converter.generateComponentCode node fw))
      acc ≠ [] := by
  induction l generalizing acc with
  | nil =>
    simp only [List.foldl_nil]
    exact h.resolve_right (by simp)
  | cons x t ih =>
    simp only [List.foldl_cons]
    exact ih _ (Or.inl (recordSet_ne_nil _ _ _))

/-- **C8.**  Determinism: `convertFigmaToCode` is a pure function of the
node set and configuration; two runs on equal inputs produce equal
output sets (component-file mapping and manifest text alike).  The
source body contains no clock, randomness, or mutable state, so its
embedding is a total function and the property holds by reflexivity. -/
theorem c8_determinism (f₁ f₂ : FigmaFile) (fw₁ fw₂ : Fw)
    (hf : f₁ = f₂) (hfw : fw₁ = fw₂) :
    Converter.convertFigmaToCode f₁ fw₁ = Converter.convertFigmaToCode f₂ fw₂ := by
  subst hf; subst hfw; rfl

theorem c8_witness :
    sampleFile [buttonNode] = sampleFile [buttonNode] ∧
    Converter.convertFigmaToCode (sampleFile [buttonNode]) .react =
      Converter.convertFigmaToCode (sampleFile [buttonNode]) .react :=
  ⟨rfl, c8_determinism (sampleFile [buttonNode]) (sampleFile [buttonNode])
    .react .react rfl rfl⟩

/-- **C9 (amended).**  The core never raises (its embedding is a total
function on arbitrary node data, every optional attribute being handled
by a per-field default), and the only failure signal is an empty
components record, which arises exactly when no supplied node passes the
`visible !== false && name` filter.  Note the filter does not test the
node kind, and it requires a non-empty name. -/
theorem c9_error_boundary (f : FigmaFile) (fw : Fw) :
    (Converter.convertFigmaToCode f fw).components = [] ↔
      f.nodes.filter Converter.validB = [] := by
  constructor
  · intro h
    by_contra hne
    exact foldl_recordSet_ne_nil fw _ [] (Or.inr hne)
      (by simpa [Converter.convertFigmaToCode] using h)
  · intro h
    simp [Converter.convertFigmaToCode, h]

/-- **C9, counterexample to the claim as stated.**  A visible COMPONENT
node with an empty name qualifies in the claim's sense (kind
COMPONENT/FRAME, visible), yet the core produces the empty components
record — the `MissingRequiredInput` condition does not arise *exactly*
when no node qualifies. -/
theorem c9_counterexample :
    (Converter.convertFigmaToCode (sampleFile [emptyNameNode]) .react).components = [] ∧
    emptyNameNode.ty = ("COMPONENT").data ∧
    emptyNameNode.visibleB = true := by
  exact ⟨rfl, rfl, rfl⟩

/-- **C10.**  A node whose name is the empty string is excluded from the
conversion entirely: deleting all empty-named nodes from the input
leaves both the component-file mapping and the index text unchanged. -/
theorem c10_empty_name_excluded (f : FigmaFile) (fw : Fw) :
    Converter.convertFigmaToCode
        { f with nodes := f.nodes.filter (fun n => !n.name.isEmpty) } fw =
      Converter.convertFigmaToCode f fw := by
  have hpred : ∀ n : FigmaNode,
      (Converter.validB n && !n.name.isEmpty) = Converter.validB n := by
    intro n
    cases hv : n.visibleB <;> cases he : n.name.isEmpty <;>
      simp [Converter.validB, hv, he]
  have hfilter :
      (f.nodes.filter (fun n => !n.name.isEmpty)).filter Converter.validB =
        f.nodes.filter Converter.validB := by
    rw [List.filter_filter]
    exact List.filter_congr (fun n _ => hpred n)
  simp only [Converter.convertFigmaToCode]
  rw [hfilter]

/-- **C7.**  In all three dialect renderers, a child with
`visible: false` contributes nothing to the rendered children markup:
removing it leaves the markup unchanged, and if it was the only child
the markup is empty. -/
theorem c7_visibility_filtering (n : FigmaNode) (xs ys : List FigmaNode)
    (c : FigmaNode) (hc : c.visibleB = false) :
    (Converter.generateReactChildren (n.withChildren (some (xs ++ c :: ys))) =
      if (xs ++ ys).isEmpty then []
      else Converter.generateReactChildren (n.withChildren (some (xs ++ ys)))) ∧
    (Converter.generateVueChildren (n.withChildren (some (xs ++ c :: ys))) =
      if (xs ++ ys).isEmpty then []
      else Converter.generateVueChildren (n.withChildren (some (xs ++ ys)))) ∧
    (Converter.generateSvelteChildren (n.withChildren (some (xs ++ c :: ys))) =
      if (xs ++ ys).isEmpty then []
      else Converter.generateSvelteChildren (n.withChildren (some (xs ++ ys)))) := by
  have hfil : (xs ++ c :: ys).filter FigmaNode.visibleB =
      (xs ++ ys).filter FigmaNode.visibleB := by
    simp [List.filter_append, List.filter_cons, hc]
  by_cases hxy : (xs ++ ys).isEmpty = true
  · rcases List.append_eq_nil.mp (List.isEmpty_iff.mp hxy) with ⟨rfl, rfl⟩
    refine ⟨?_, ?_, ?_⟩ <;>
      simp [Converter.generateReactChildren, Converter.generateVueChildren,
        Converter.generateSvelteChildren, List.filter_cons, hc, joinSep]
  · have hne : ¬(xs ++ c :: ys).isEmpty = true := by
      simp [List.isEmpty_iff]
    refine ⟨?_, ?_, ?_⟩ <;>
      simp only [Converter.generateReactChildren, Converter.generateVueChildren,
        Converter.generateSvelteChildren, FigmaNode.children_withChildren,
        hfil, hne, hxy, if_false, Bool.false_eq_true, ite_false]

theorem c7_witness :
    hiddenChild.visibleB = false ∧
    ((Converter.generateReactChildren
        (cardNode.withChildren (some ([] ++ hiddenChild :: [shownChild]))) =
      if (([] ++ [shownChild] : List FigmaNode)).isEmpty then []
      else Converter.generateReactChildren
        (cardNode.withChildren (some ([] ++ [shownChild])))) ∧
    (Converter.generateVueChildren
        (cardNode.withChildren (some ([] ++ hiddenChild :: [shownChild]))) =
      if (([] ++ [shownChild] : List FigmaNode)).isEmpty then []
      else Converter.generateVueChildren
        (cardNode.withChildren (some ([] ++ [shownChild])))) ∧
    (Converter.generateSvelteChildren
        (cardNode.withChildren (some ([] ++ hiddenChild :: [shownChild]))) =
      if (([] ++ [shownChild] : List FigmaNode)).isEmpty then []
      else Converter.generateSvelteChildren
        (cardNode.withChildren (some ([] ++ [shownChild]))))) :=
  ⟨rfl, c7_visibility_filtering cardNode [] [shownChild] hiddenChild rfl⟩

/-! Character-class lemmas for the Identity Normalizer. -/

theorem toNat_ofNat_valid (m : ℕ) (h : m < 55296) : (Char.ofNat m).toNat = m := by
  have hv : Nat.isValidChar m := Or.inl h
  simp [Char.ofNat, hv, Char.ofNatAux, Char.toNat, UInt32.toNat, UInt32.ofNatCore]

theorem alnum_iff (c : Char) : isAlnumC c = true ↔
    (97 ≤ c.toNat ∧ c.toNat ≤ 122) ∨ (65 ≤ c.toNat ∧ c.toNat ≤ 90) ∨
      (48 ≤ c.toNat ∧ c.toNat ≤ 57) := by
  simp [isAlnumC, isLowerC, isUpperC, isDigitC, Bool.or_eq_true,
    Bool.and_eq_true, decide_eq_true_eq, or_assoc]

theorem slug_iff (c : Char) : isSlugC c = true ↔
    (97 ≤ c.toNat ∧ c.toNat ≤ 122) ∨ (48 ≤ c.toNat ∧ c.toNat ≤ 57) ∨
      c.toNat = 45 := by
  simp [isSlugC, isLowerC, isDigitC, Bool.or_eq_true, Bool.and_eq_true,
    decide_eq_true_eq, or_assoc]

theorem toNat_toUpperC (c : Char) : (toUpperC c).toNat =
    if 97 ≤ c.toNat ∧ c.toNat ≤ 122 then c.toNat - 32 else c.toNat := by
  by_cases hl : isLowerC c = true
  · have hb : 97 ≤ c.toNat ∧ c.toNat ≤ 122 := by
      simpa [isLowerC, Bool.and_eq_true, decide_eq_true_eq] using hl
    rw [toUpperC, if_pos hl, toNat_ofNat_valid _ (by omega), if_pos hb]
  · have hb : ¬(97 ≤ c.toNat ∧ c.toNat ≤ 122) := by
      simpa [isLowerC, Bool.and_eq_true, decide_eq_true_eq] using hl
    rw [toUpperC, if_neg hl, if_neg hb]

theorem toNat_toLowerC (c : Char) : (toLowerC c).toNat =
    if 65 ≤ c.toNat ∧ c.toNat ≤ 90 then c.toNat + 32 else c.toNat := by
  by_cases hl : isUpperC c = true
  · have hb : 65 ≤ c.toNat ∧ c.toNat ≤ 90 := by
      simpa [isUpperC, Bool.and_eq_true, decide_eq_true_eq] using hl
    rw [toLowerC, if_pos hl, toNat_ofNat_valid _ (by omega), if_pos hb]
  · have hb : ¬(65 ≤ c.toNat ∧ c.toNat ≤ 90) := by
      simpa [isUpperC, Bool.and_eq_true, decide_eq_true_eq] using hl
    rw [toLowerC, if_neg hl, if_neg hb]

theorem alnum_not_sep (c : Char) (h : isAlnumC c = true) : isSepC c = false := by
  cases hs : isSepC c with
  | false => rfl
  | true =>
    exfalso
    rw [alnum_iff] at h
    have hsv : c.toNat = 32 ∨ c.toNat = 9 ∨ c.toNat = 10 ∨ c.toNat = 11 ∨
        c.toNat = 12 ∨ c.toNat = 13 ∨ c.toNat = 45 ∨ c.toNat = 95 := by
      simpa [isSepC, isWsC, Bool.or_eq_true, decide_eq_true_eq, or_assoc]
        using hs
    omega

theorem alnum_toUpperC (c : Char) (h : isAlnumC c = true) :
    isAlnumC (toUpperC c) = true := by
  rw [alnum_iff] at h ⊢
  rw [toNat_toUpperC]
  split <;> omega

theorem alnum_toLowerC (c : Char) (h : isAlnumC c = true) :
    isAlnumC (toLowerC c) = true := by
  rw [alnum_iff] at h ⊢
  rw [toNat_toLowerC]
  split <;> omega

theorem slug_toLowerC (c : Char) (h : isAlnumC c = true) :
    isSlugC (toLowerC c) = true := by
  rw [alnum_iff] at h
  rw [slug_iff, toNat_toLowerC]
  split <;> omega

theorem not_ws_toLowerC (c : Char) (h : isAlnumC c = true) :
    isWsC (toLowerC c) = false := by
  cases hs : isWsC (toLowerC c) with
  | false => rfl
  | true =>
    exfalso
    rw [alnum_iff] at h
    have hsv : (toLowerC c).toNat = 32 ∨ (toLowerC c).toNat = 9 ∨
        (toLowerC c).toNat = 10 ∨ (toLowerC c).toNat = 11 ∨
        (toLowerC c).toNat = 12 ∨ (toLowerC c).toNat = 13 := by
      simpa [isWsC, Bool.or_eq_true, decide_eq_true_eq, or_assoc] using hs
    rw [toNat_toLowerC] at hsv
    revert hsv
    split <;> omega

/-- An alphanumeric member of a token survives `capWord`. -/
theorem capWord_alnum_mem (w : Str) (c : Char) (hc : c ∈ w)
    (ha : isAlnumC c = true) :
    ∃ d ∈ Converter.capWord w, isAlnumC d = true := by
  cases w with
  | nil => simp at hc
  | cons x rest =>
    cases hc with
    | head =>
      exact ⟨toUpperC c, by simp [Converter.capWord], alnum_toUpperC c ha⟩
    | tail _ h =>
      refine ⟨toLowerC c, ?_, alnum_toLowerC c ha⟩
      simp only [Converter.capWord, List.mem_cons]
      exact Or.inr (List.mem_map_of_mem _ h)

/-- **C1 (amended).**  For every raw name containing at least one ASCII
alphanumeric character, the derived `displayName` (`toPascalCase`) is
non-empty and matches `[A-Za-z0-9]+`, and the derived `fileSlug`
(`sanitizeFileName`) is non-empty, at most 50 characters, and matches
`[a-z0-9-]+` — i.e. `[a-z0-9-]{1,50}`.  (The source has no
counter-based fallback: a name with no ASCII alphanumeric character
yields an empty `displayName`, see the counterexample.) -/
theorem c1_identity_safety (l : Str) (h : ∃ c ∈ l, isAlnumC c = true) :
    (Converter.toPascalCase l ≠ [] ∧
      ∀ c ∈ Converter.toPascalCase l, isAlnumC c = true) ∧
    (Converter.sanitizeFileName l ≠ [] ∧
      (Converter.sanitizeFileName l).length ≤ 50 ∧
      ∀ c ∈ Converter.sanitizeFileName l, isSlugC c = true) := by
  obtain ⟨c, hcl, hca⟩ := h
  refine ⟨⟨?_, ?_⟩, ?_, ?_, ?_⟩
  · obtain ⟨w, hw, hcw⟩ :=
      mem_splitRuns_of_mem isSepC l c hcl (alnum_not_sep c hca)
    obtain ⟨d, hd, hda⟩ := capWord_alnum_mem w c hcw hca
    have hdj : d ∈ ((splitRuns isSepC l).map Converter.capWord).flatten :=
      List.mem_flatten.mpr ⟨Converter.capWord w, List.mem_map_of_mem _ hw, hd⟩
    have hdp : d ∈ Converter.toPascalCase l := by
      unfold Converter.toPascalCase
      exact List.mem_filter.mpr ⟨hdj, hda⟩
    exact List.ne_nil_of_mem hdp
  · intro x hx
    exact (List.mem_filter.mp hx).2
  · have hmem : toLowerC c ∈ l.map toLowerC := List.mem_map_of_mem _ hcl
    obtain ⟨w, hw, hcw⟩ :=
      mem_splitRuns_of_mem isWsC (l.map toLowerC) (toLowerC c) hmem
        (not_ws_toLowerC c hca)
    have hjoin : toLowerC c ∈
        joinSep [Char.ofNat 45] (splitRuns isWsC (l.map toLowerC)) :=
      mem_joinSep_of_mem _ _ w _ hw hcw
    have hfil : toLowerC c ∈
        (joinSep [Char.ofNat 45] (splitRuns isWsC (l.map toLowerC))).filter
          isSlugC :=
      List.mem_filter.mpr ⟨hjoin, slug_toLowerC c hca⟩
    intro htake
    unfold Converter.sanitizeFileName at htake
    rcases List.take_eq_nil_iff.mp htake with h50 | hnil
    · omega
    · rw [hnil] at hfil
      simp at hfil
  · simp [Converter.sanitizeFileName]
  · intro x hx
    have hx' := List.mem_of_mem_take hx
    exact (List.mem_filter.mp hx').2

/-- **C1, counterexample to the claim as stated.**  The all-punctuation
name `"!!!"` sanitizes to the empty `displayName` and the empty
`fileSlug`: no deterministic counter-based fallback exists in the
code. -/
theorem c1_counterexample :
    Converter.toPascalCase (("!!!").data) = [] ∧
    Converter.sanitizeFileName (("!!!").data) = [] := ⟨rfl, rfl⟩

theorem c1_witness :
    (∃ c ∈ ((("Submit Button").data : Str)), isAlnumC c = true) ∧
    ((Converter.toPascalCase (("Submit Button").data) ≠ [] ∧
      ∀ c ∈ Converter.toPascalCase (("Submit Button").data),
        isAlnumC c = true) ∧
    (Converter.sanitizeFileName (("Submit Button").data) ≠ [] ∧
      (Converter.sanitizeFileName (("Submit Button").data)).length ≤ 50 ∧
      ∀ c ∈ Converter.sanitizeFileName (("Submit Button").data),
        isSlugC c = true)) :=
  ⟨by decide, c1_identity_safety (("Submit Button").data) (by decide)⟩

/-! Lemmas about the component-record keys (claim C4). -/

theorem mem_keys_recordSet (acc : List (Str × Str)) (k k' v : Str)
    (h : k ∈ (Converter.recordSet acc k' v).map Prod.fst) :
    k = k' ∨ k ∈ acc.map Prod.fst := by
  induction acc with
  | nil => simpa [Converter.recordSet] using h
  | cons p rest ih =>
    obtain ⟨a, b⟩ := p
    simp only [Converter.recordSet] at h
    by_cases hak : a = k'
    · rw [if_pos hak] at h
      simp only [List.map_cons, List.mem_cons] at h
      rcases h with h | h
      · exact Or.inl h
      · exact Or.inr (by simp [h])
    · rw [if_neg hak] at h
      simp only [List.map_cons, List.mem_cons] at h
      rcases h with h | h
      · exact Or.inr (by simp [h])
      · rcases ih h with h' | h'
        · exact Or.inl h'
        · exact Or.inr (by simp [h'])

theorem keys_foldl_components (fw : Fw) (l : List FigmaNode)
    (acc : List (Str × Str)) (k : Str)
    (h : k ∈ (l.foldl
      (fun acc node =>
        Converter.recordSet acc
          (Converter.sanitizeFileName node.name ++ (".tsx").data)
          (Converter.generateComponentCode node fw))
      acc).map Prod.fst) :
    k ∈ acc.map Prod.fst ∨
      ∃ n ∈ l, k = Converter.sanitizeFileName n.name ++ (".tsx").data := by
  induction l generalizing acc with
  | nil => exact Or.inl (by simpa using h)
  | cons x t ih =>
    simp only [List.foldl_cons] at h
    rcases ih _ h with h' | h'
    · rcases mem_keys_recordSet _ _ _ _ h' with h'' | h''
      · exact Or.inr ⟨x, by simp, h''⟩
      · exact Or.inl h''
    · obtain ⟨n, hn, hk⟩ := h'
      exact Or.inr ⟨n, by simp [hn], hk⟩

/-- **C4 (amended).**  File naming: `convertFigmaToCode` names every
emitted component file `{fileSlug}.tsx` for *all three* dialects (the
extension is fixed, not dialect-determined, and no `typescript` flag
exists on that path); the class method `DesignToCode.generateComponent`
names its output `{PascalCase(sanitizedName)}.{ext}` with `ext`
dialect-determined — `tsx`/`jsx` by the `typescript` flag for react,
fixed `vue` and `svelte` otherwise — but uses the display name, not the
file slug. -/
theorem c4_file_naming :
    (∀ (f : FigmaFile) (fw : Fw) (k : Str),
      k ∈ ((Converter.convertFigmaToCode f fw).components).map Prod.fst →
      ∃ n ∈ f.nodes,
        k = Converter.sanitizeFileName n.name ++ (".tsx").data) ∧
    (∀ (cfg : DesignToCode.ComponentConfig) (n : FigmaNode),
      (DesignToCode.generateComponent cfg n).filename =
        DesignToCode.toPascalCase (DesignToCode.sanitizeName n.name) ++
          (".").data ++
          (match cfg.framework with
           | .react => if cfg.typescript then ("tsx").data else ("jsx").data
           | .vue => ("vue").data
           | .svelte => ("svelte").data)) := by
  constructor
  · intro f fw k hk
    simp only [Converter.convertFigmaToCode] at hk
    rcases keys_foldl_components fw _ [] k hk with h | h
    · simp at h
    · obtain ⟨n, hn, hk'⟩ := h
      exact ⟨n, List.mem_of_mem_filter hn, hk'⟩
  · intro cfg n
    cases hfw : cfg.framework <;>
      simp [DesignToCode.generateComponent, DesignToCode.extractProps, hfw]

/-- **C4, counterexample to the claim as stated.**  For the node named
`Button`, all three dialects of `convertFigmaToCode` emit the same file
name `button.tsx`: the extension is not dialect-determined (a Vue or
Svelte run does not get its own extension). -/
theorem c4_counterexample :
    ((Converter.convertFigmaToCode (sampleFile [buttonNode]) .react).components).map
        Prod.fst = [("button.tsx").data] ∧
    ((Converter.convertFigmaToCode (sampleFile [buttonNode]) .vue).components).map
        Prod.fst = [("button.tsx").data] ∧
    ((Converter.convertFigmaToCode (sampleFile [buttonNode]) .svelte).components).map
        Prod.fst = [("button.tsx").data] :=
  ⟨rfl, rfl, rfl⟩

theorem c4_witness :
    (("button.tsx").data ∈
      ((Converter.convertFigmaToCode (sampleFile [buttonNode]) .vue).components).map
        Prod.fst) ∧
    (∃ n ∈ (sampleFile [buttonNode]).nodes,
      (("button.tsx").data : Str) =
        Converter.sanitizeFileName n.name ++ (".tsx").data) ∧
    ((DesignToCode.generateComponent (cfgOf .vue) buttonNode).filename =
      DesignToCode.toPascalCase (DesignToCode.sanitizeName buttonNode.name) ++
        (".").data ++
        (match (cfgOf .vue).framework with
         | .react => if (cfgOf .vue).typescript then ("tsx").data else ("jsx").data
         | .vue => ("vue").data
         | .svelte => ("svelte").data)) :=
  ⟨by decide,
   c4_file_naming.1 (sampleFile [buttonNode]) .vue (("button.tsx").data)
     (by decide),
   c4_file_naming.2 (cfgOf .vue) buttonNode⟩

/-! Line-structure lemmas for the index file (claim C5). -/

theorem splitNl_append_nl (a b : Str) (ha : ∀ c ∈ a, c.toNat ≠ 10) :
    splitNl (a ++ ("\n").data ++ b) = a :: splitNl b := by
  induction a with
  | nil =>
    simp [splitNl]
  | cons c rest ih =>
    have hc : c.toNat ≠ 10 := ha c (by simp)
    have ih' := ih (fun x hx => ha x (by simp [hx]))
    have he : (c :: rest) ++ ("\n").data ++ b = c :: (rest ++ ("\n").data ++ b) := by
      simp
    rw [he]
    simp only [splitNl, if_neg hc, ih']

theorem splitNl_joinSep_nl (lines : List Str)
    (hne : lines ≠ []) (hfree : ∀ s ∈ lines, ∀ c ∈ s, c.toNat ≠ 10) :
    splitNl (joinSep (("\n").data) lines ++ ("\n").data) = lines ++ [[]] := by
  match lines with
  | [] => exact absurd rfl hne
  | [w] =>
    have hw : ∀ c ∈ w, c.toNat ≠ 10 := hfree w (by simp)
    have : joinSep (("\n").data) [w] ++ ("\n").data = w ++ ("\n").data ++ [] := by
      simp [joinSep]
    rw [this, splitNl_append_nl w [] hw]
    rfl
  | w :: x :: rest =>
    have hw : ∀ c ∈ w, c.toNat ≠ 10 := hfree w (by simp)
    have ih := splitNl_joinSep_nl (x :: rest) (by simp)
      (fun s hs => hfree s (by simp [List.mem_cons] at hs ⊢; tauto))
    have he : joinSep (("\n").data) (w :: x :: rest) ++ ("\n").data =
        w ++ ("\n").data ++ (joinSep (("\n").data) (x :: rest) ++ ("\n").data) := by
      simp [joinSep]
    rw [he, splitNl_append_nl w _ hw, ih]
    rfl

theorem toPascalCase_nlFree (l : Str) :
    ∀ c ∈ Converter.toPascalCase l, c.toNat ≠ 10 := by
  intro c hc
  have := (List.mem_filter.mp hc).2
  rw [alnum_iff] at this
  omega

theorem sanitizeFileName_nlFree (l : Str) :
    ∀ c ∈ Converter.sanitizeFileName l, c.toNat ≠ 10 := by
  intro c hc
  have := (List.mem_filter.mp (List.mem_of_mem_take hc)).2
  rw [slug_iff] at this
  omega

theorem exportLine_nlFree (n : FigmaNode) :
    ∀ c ∈ exportLine n, c.toNat ≠ 10 := by
  intro c hc
  simp only [exportLine, List.append_assoc, List.mem_append] at hc
  have hlit1 : ∀ x ∈ (("export \x7b default as ").data : Str), x.toNat ≠ 10 := by
    decide
  have hlit2 : ∀ x ∈ ((" \x7d from \x27./").data : Str), x.toNat ≠ 10 := by
    decide
  have hlit3 : ∀ x ∈ (("\x27;").data : Str), x.toNat ≠ 10 := by decide
  rcases hc with h | h | h | h | h
  · exact hlit1 c h
  · exact toPascalCase_nlFree n.name c h
  · exact hlit2 c h
  · exact sanitizeFileName_nlFree n.name c h
  · exact hlit3 c h

theorem indexHeader_nlFree (fw : Fw) :
    ∀ c ∈ indexHeader fw, c.toNat ≠ 10 := by
  cases fw <;> decide

/-- **C5 (amended).**  The index file consists of exactly the header
line, then one re-export line per valid (visible, non-empty-named) node
— in original encounter order, each referencing `./{fileSlug}` — and a
trailing empty line.  Duplicated `fileSlug`s are *not* collapsed: every
occurrence emits its own line. -/
theorem c5_manifest (nodes : List FigmaNode) (fw : Fw)
    (hne : nodes.filter Converter.validB ≠ []) :
    splitNl (Converter.generateIndexFile nodes fw) =
      indexHeader fw ::
        ((nodes.filter Converter.validB).map exportLine ++ [[]]) := by
  have hlines_ne : (nodes.filter Converter.validB).map exportLine ≠ [] := by
    simpa using hne
  have hfree : ∀ s ∈ (nodes.filter Converter.validB).map exportLine,
      ∀ c ∈ s, c.toNat ≠ 10 := by
    intro s hs
    obtain ⟨n, _, rfl⟩ := List.mem_map.mp hs
    exact exportLine_nlFree n
  cases fw with
  | vue =>
    have hh : Converter.generateIndexFile nodes .vue =
        indexHeader .vue ++ ("\n").data ++
          (joinSep (("\n").data)
            ((nodes.filter Converter.validB).map exportLine) ++ ("\n").data) := rfl
    rw [hh, splitNl_append_nl _ _ (indexHeader_nlFree .vue),
      splitNl_joinSep_nl _ hlines_ne hfree]
  | react =>
    have hh : Converter.generateIndexFile nodes .react =
        indexHeader .react ++ ("\n").data ++
          (joinSep (("\n").data)
            ((nodes.filter Converter.validB).map exportLine) ++ ("\n").data) := rfl
    rw [hh, splitNl_append_nl _ _ (indexHeader_nlFree .react),
      splitNl_joinSep_nl _ hlines_ne hfree]
  | svelte =>
    have hh : Converter.generateIndexFile nodes .svelte =
        indexHeader .svelte ++ ("\n").data ++
          (joinSep (("\n").data)
            ((nodes.filter Converter.validB).map exportLine) ++ ("\n").data) := rfl
    rw [hh, splitNl_append_nl _ _ (indexHeader_nlFree .svelte),
      splitNl_joinSep_nl _ hlines_ne hfree]

/-- **C5, counterexample to the claim as stated.**  The nodes `Button`
and `Button!!` share the file slug `button`, yet the index contains two
(identical) re-export lines — duplicates are not collapsed to the first
occurrence. -/
theorem c5_counterexample :
    Converter.sanitizeFileName buttonNode.name =
      Converter.sanitizeFileName buttonBangNode.name ∧
    splitNl (Converter.generateIndexFile [buttonNode, buttonBangNode] .react) =
      [("// react Components").data, exportLine buttonNode,
        exportLine buttonBangNode, []] ∧
    exportLine buttonNode = exportLine buttonBangNode :=
  ⟨rfl, rfl, rfl⟩

theorem c5_witness :
    (([buttonNode] : List FigmaNode).filter Converter.validB ≠ []) ∧
    splitNl (Converter.generateIndexFile [buttonNode] .react) =
      indexHeader .react ::
        ((([buttonNode] : List FigmaNode).filter Converter.validB).map
          exportLine ++ [[]]) := by
  have hne : ([buttonNode] : List FigmaNode).filter Converter.validB ≠ [] := by
    rw [show ([buttonNode] : List FigmaNode).filter Converter.validB =
      [buttonNode] from rfl]
    simp
  exact ⟨hne, c5_manifest [buttonNode] .react hne⟩

/-! Claim C6: the font-size utility in utility-class mode. -/

theorem joinSep_append_last (sep : Str) (l : List Str) (x : Str) :
    ∃ pre : Str, joinSep sep (l ++ [x]) = pre ++ x := by
  induction l with
  | nil => exact ⟨[], by simp [joinSep]⟩
  | cons w t ih =>
    obtain ⟨pre, hp⟩ := ih
    cases ht : t ++ [x] with
    | nil => simp at ht
    | cons y ys =>
      refine ⟨w ++ sep ++ pre, ?_⟩
      have : joinSep sep ((w :: t) ++ [x]) = w ++ sep ++ joinSep sep (t ++ [x]) := by
        rw [List.cons_append, ht]
        simp [joinSep]
      rw [this, hp]
      simp [List.append_assoc]

/-- **C6 (amended).**  In utility-class mode, a property record with a
(non-zero) `fontSize` yields a class string ending in the font utility:
`text-[{fontSize}px]` exactly when `round(fontSize / 4) > 16` (not when
`fontSize > 16`), and `text-{round(fontSize / 4)}` otherwise. -/
theorem c6_font_size_utility (p : DesignToCode.DTCProps) (v : ℚ)
    (hv : p.fontSize = some v) (hnz : ¬v = 0) :
    ∃ pre : Str, DesignToCode.generateTailwindClasses p =
      pre ++ (("text-").data ++
        (if 16 < jsRound (v / 4) then ("[").data ++ qToStr v ++ ("px]").data
         else intDec (jsRound (v / 4)))) := by
  simp only [DesignToCode.generateTailwindClasses, hv, if_neg hnz]
  exact joinSep_append_last _ _ _

theorem c6_witness :
    fs20Props.fontSize = some 20 ∧ ¬(20 : ℚ) = 0 ∧
    (∃ pre : Str, DesignToCode.generateTailwindClasses fs20Props =
      pre ++ (("text-").data ++
        (if 16 < jsRound ((20 : ℚ) / 4) then
          ("[").data ++ qToStr 20 ++ ("px]").data
         else intDec (jsRound ((20 : ℚ) / 4))))) :=
  ⟨rfl, by norm_num, c6_font_size_utility fs20Props 20 rfl (by norm_num)⟩

/-- **C6, counterexample to the claim as stated.**  `fontSize = 20` is
greater than 16, yet the synthesized class string is `text-5` (because
`round(20 / 4) = 5 ≤ 16`) and does not contain `text-[20px]`. -/
theorem c6_counterexample :
    fs20Props.fontSize = some 20 ∧ (16 : ℚ) < 20 ∧
    DesignToCode.generateTailwindClasses fs20Props = ("text-5").data ∧
    hasSub (("text-[20px]").data)
      (DesignToCode.generateTailwindClasses fs20Props) = false := by
  have h5 : jsRound ((20 : ℚ) / 4) = 5 := by unfold jsRound; norm_num
  have hmain : DesignToCode.generateTailwindClasses fs20Props =
      ("text-5").data := by
    simp only [DesignToCode.generateTailwindClasses, fs20Props, h5,
      if_neg (by norm_num : ¬(20 : ℚ) = 0)]
    rfl
  refine ⟨rfl, by norm_num, hmain, ?_⟩
  rw [hmain]
  rfl

/-! Claim C3: background color extraction and hex conversion. -/

theorem natHexAux_small (fuel k : ℕ) (hk : k < 16) (hf : 0 < fuel) :
    natHexAux fuel k = [hexDigit k] := by
  cases fuel with
  | zero => omega
  | succ f => simp [natHexAux, hk]

theorem natHex_one (m : ℕ) (hm : m < 16) : natHex m = [hexDigit m] := by
  unfold natHex
  exact natHexAux_small _ _ hm (by omega)

theorem natHex_two (m : ℕ) (h16 : 16 ≤ m) (h256 : m < 256) :
    natHex m = [hexDigit (m / 16), hexDigit (m % 16)] := by
  unfold natHex
  cases m with
  | zero => omega
  | succ m' =>
    simp only [natHexAux, if_neg (by omega : ¬m' + 1 < 16)]
    rw [if_pos (show (m' + 1) / 16 < 16 from by omega)]
    rfl

theorem jsRound_channel_bounds (x : ℚ) (h0 : 0 ≤ x) (h1 : x ≤ 1) :
    0 ≤ jsRound (x * 255) ∧ jsRound (x * 255) ≤ 255 := by
  constructor
  · unfold jsRound
    rw [Int.le_floor]
    push_cast
    linarith
  · have hlt : jsRound (x * 255) < 256 := by
      unfold jsRound
      rw [Int.floor_lt]
      push_cast
      linarith
    omega

theorem channelHex_spec (x : ℚ) (h0 : 0 ≤ x) (h1 : x ≤ 1) :
    (DesignToCode.channelHex x).map toUpperC =
      hexPairU (jsRound (x * 255)).toNat ∧
    0 ≤ jsRound (x * 255) ∧ jsRound (x * 255) ≤ 255 := by
  obtain ⟨hv0, hv255⟩ := jsRound_channel_bounds x h0 h1
  refine ⟨?_, hv0, hv255⟩
  have habs : (jsRound (x * 255)).natAbs = (jsRound (x * 255)).toNat := by
    omega
  have hm255 : (jsRound (x * 255)).toNat ≤ 255 := by omega
  set m : ℕ := (jsRound (x * 255)).toNat with hm
  have hih : intHex (jsRound (x * 255)) = natHex m := by
    unfold intHex
    rw [if_neg (by omega : ¬jsRound (x * 255) < 0), habs]
  have h48 : toUpperC (Char.ofNat 48) = Char.ofNat 48 := by decide
  by_cases hsm : m < 16
  · have hn1 : natHex m = [hexDigit m] := natHex_one m hsm
    simp [DesignToCode.channelHex, hih, hn1, hexPairU, hsm, h48]
  · have hn2 : natHex m = [hexDigit (m / 16), hexDigit (m % 16)] :=
      natHex_two m (by omega) (by omega)
    simp [DesignToCode.channelHex, hih, hn2, hexPairU, hsm]

/-- **C3 (amended).**  For a node whose `fills` array is non-empty: if
the first fill is SOLID with a color whose channels lie in `[0, 1]`,
the extracted `backgroundColor` is `#` followed by three two-digit
uppercase hex bytes, each `round(channel * 255)` (which lies in
`[0, 255]`); if the first fill is not SOLID or carries no color, the
extracted `backgroundColor` is the *default black* `#000000`, not
absent.  Only when `fills` is absent or empty is the field absent. -/
theorem c3_background (n : FigmaNode) (fill : Paint) (rest : List Paint)
    (hf : n.fills = some (fill :: rest)) :
    (∀ col : RGBA, fill.ty = ("SOLID").data → fill.color = some col →
      0 ≤ col.r → col.r ≤ 1 → 0 ≤ col.g → col.g ≤ 1 →
      0 ≤ col.b → col.b ≤ 1 →
      (DesignToCode.extractProps n).backgroundColor =
        some (Char.ofNat 35 ::
          (hexPairU (jsRound (col.r * 255)).toNat ++
           hexPairU (jsRound (col.g * 255)).toNat ++
           hexPairU (jsRound (col.b * 255)).toNat)) ∧
      0 ≤ jsRound (col.r * 255) ∧ jsRound (col.r * 255) ≤ 255 ∧
      0 ≤ jsRound (col.g * 255) ∧ jsRound (col.g * 255) ≤ 255 ∧
      0 ≤ jsRound (col.b * 255) ∧ jsRound (col.b * 255) ≤ 255) ∧
    ((fill.ty ≠ ("SOLID").data ∨ fill.color = none) →
      (DesignToCode.extractProps n).backgroundColor =
        some (("#000000").data)) ∧
    (∀ m : FigmaNode, m.fills = none ∨ m.fills = some [] →
      (DesignToCode.extractProps m).backgroundColor = none) := by
  refine ⟨?_, ?_, ?_⟩
  · intro col hty hcol hr0 hr1 hg0 hg1 hb0 hb1
    obtain ⟨hrm, hr0', hr255⟩ := channelHex_spec col.r hr0 hr1
    obtain ⟨hgm, hg0', hg255⟩ := channelHex_spec col.g hg0 hg1
    obtain ⟨hbm, hb0', hb255⟩ := channelHex_spec col.b hb0 hb1
    refine ⟨?_, hr0', hr255, hg0', hg255, hb0', hb255⟩
    have hbg : (DesignToCode.extractProps n).backgroundColor =
        some (DesignToCode.colorToHex fill) := by
      simp [DesignToCode.extractProps, hf]
    rw [hbg]
    have h35 : toUpperC (Char.ofNat 35) = Char.ofNat 35 := by decide
    simp only [DesignToCode.colorToHex, if_pos hty, hcol, List.map_cons,
      List.map_append, h35, hrm, hgm, hbm]
  · intro hbad
    have hbg : (DesignToCode.extractProps n).backgroundColor =
        some (DesignToCode.colorToHex fill) := by
      simp [DesignToCode.extractProps, hf]
    rw [hbg]
    rcases hbad with hty | hcol
    · simp [DesignToCode.colorToHex, hty]
    · by_cases hty : fill.ty = ("SOLID").data <;>
        simp [DesignToCode.colorToHex, hty, hcol]
  · intro m hm
    rcases hm with hm | hm <;> simp [DesignToCode.extractProps, hm]

/-- **C3, counterexample to the claim as stated.**  When the first fill
is not SOLID (and has no color), the extracted record's background is
`#000000` — a present default color — rather than absent. -/
theorem c3_counterexample :
    imageNode.fills = some [imagePaint] ∧
    imagePaint.ty ≠ ("SOLID").data ∧
    (DesignToCode.extractProps imageNode).backgroundColor =
      some (("#000000").data) :=
  ⟨rfl, by decide, rfl⟩

theorem c3_witness :
    solidNode.fills = some (solidPaint :: []) ∧
    solidPaint.ty = ("SOLID").data ∧
    solidPaint.color = some ⟨2/5, 2/5, 47/50, 1⟩ ∧
    ((DesignToCode.extractProps solidNode).backgroundColor =
        some (Char.ofNat 35 ::
          (hexPairU (jsRound ((2/5 : ℚ) * 255)).toNat ++
           hexPairU (jsRound ((2/5 : ℚ) * 255)).toNat ++
           hexPairU (jsRound ((47/50 : ℚ) * 255)).toNat)) ∧
      0 ≤ jsRound ((2/5 : ℚ) * 255) ∧ jsRound ((2/5 : ℚ) * 255) ≤ 255 ∧
      0 ≤ jsRound ((2/5 : ℚ) * 255) ∧ jsRound ((2/5 : ℚ) * 255) ≤ 255 ∧
      0 ≤ jsRound ((47/50 : ℚ) * 255) ∧ jsRound ((47/50 : ℚ) * 255) ≤ 255) ∧
    (DesignToCode.extractProps solidNode).backgroundColor =
      some (("#6666F0").data) := by
  have h102 : jsRound ((2/5 : ℚ) * 255) = 102 := by unfold jsRound; norm_num
  have h240 : jsRound ((47/50 : ℚ) * 255) = 240 := by unfold jsRound; norm_num
  have hbg : (DesignToCode.extractProps solidNode).backgroundColor =
      some (("#6666F0").data) := by
    have hstep : (DesignToCode.extractProps solidNode).backgroundColor =
        some (DesignToCode.colorToHex solidPaint) := rfl
    rw [hstep]
    simp only [DesignToCode.colorToHex, DesignToCode.channelHex, solidPaint,
      h102, h240]
    decide
  refine ⟨rfl, rfl, rfl, ?_, hbg⟩
  exact (c3_background solidNode solidPaint [] rfl).1 ⟨2/5, 2/5, 47/50, 1⟩
    rfl rfl (by norm_num) (by norm_num) (by norm_num) (by norm_num)
    (by norm_num) (by norm_num)

/-! Claim C2: placeholder extraction and the emitted input surface. -/

theorem preL_extend (p s y : Str) (h : preL p s = true) :
    preL p (s ++ y) = true := by
  induction p generalizing s with
  | nil => rfl
  | cons a as ih =>
    cases s with
    | nil => simp [preL] at h
    | cons b bs =>
      simp only [preL, Bool.and_eq_true] at h ⊢
      exact ⟨h.1, by simpa using ih bs h.2⟩

theorem hasSub_append_left (pat s y : Str) (h : hasSub pat s = true) :
    hasSub pat (s ++ y) = true := by
  induction s with
  | nil =>
    cases pat with
    | nil => cases y <;> simp [hasSub, preL]
    | cons a as => simp [hasSub, preL] at h
  | cons c t ih =>
    simp only [hasSub, Bool.or_eq_true] at h
    have he : (c :: t) ++ y = c :: (t ++ y) := rfl
    rw [he]
    simp only [hasSub, Bool.or_eq_true]
    rcases h with h | h
    · exact Or.inl (preL_extend _ _ _ h)
    · exact Or.inr (ih h)

theorem hasSub_append_right (pat s x : Str) (h : hasSub pat s = true) :
    hasSub pat (x ++ s) = true := by
  induction x with
  | nil => simpa using h
  | cons c t ih =>
    have he : (c :: t) ++ s = c :: (t ++ s) := rfl
    rw [he]
    simp only [hasSub, Bool.or_eq_true]
    exact Or.inr ih

theorem foldl_addPh_all_eq (u : Str) (xs : List Str) (acc : List Str)
    (hall : ∀ x ∈ xs, x = u) :
    xs.foldl Converter.addPh acc =
      if u ∈ acc ∨ xs = [] then acc else acc ++ [u] := by
  induction xs generalizing acc with
  | nil => simp
  | cons x t ih =>
    have hx : x = u := hall x (by simp)
    simp only [List.foldl_cons, hx]
    by_cases hmem : u ∈ acc
    · rw [show Converter.addPh acc u = acc from by simp [Converter.addPh, hmem]]
      rw [ih acc (fun y hy => hall y (by simp [hy]))]
      simp [hmem]
    · rw [show Converter.addPh acc u = acc ++ [u] from by
        simp [Converter.addPh, hmem]]
      rw [ih (acc ++ [u]) (fun y hy => hall y (by simp [hy]))]
      have hm : u ∈ acc ++ [u] := by simp
      simp [hmem, hm]

theorem extractStep_pres (u : Str) (c : FigmaNode) (acc : List Str)
    (hall : c.ty = ("TEXT").data → ∀ t, c.textContent = some t →
      ∀ x ∈ Converter.phScan t, x = u)
    (hacc : acc = [] ∨ acc = [u]) :
    extractStep acc c = [] ∨ extractStep acc c = [u] := by
  unfold extractStep
  by_cases hty : c.ty = ("TEXT").data
  · rw [if_pos hty]
    cases htc : c.textContent with
    | none => exact hacc
    | some t0 =>
      dsimp only
      by_cases hg : hasSub (("$\x7b").data) t0 = true
      · rw [if_pos hg, foldl_addPh_all_eq u _ acc (hall hty t0 htc)]
        rcases hacc with rfl | rfl
        · split
          · exact Or.inl rfl
          · exact Or.inr rfl
        · rw [if_pos (Or.inl (by simp))]
          exact Or.inr rfl
      · rw [if_neg hg]; exact hacc
  · rw [if_neg hty]; exact hacc

theorem extractStep_keep (u : Str) (c : FigmaNode)
    (hall : c.ty = ("TEXT").data → ∀ t, c.textContent = some t →
      ∀ x ∈ Converter.phScan t, x = u) :
    extractStep [u] c = [u] := by
  unfold extractStep
  by_cases hty : c.ty = ("TEXT").data
  · rw [if_pos hty]
    cases htc : c.textContent with
    | none => rfl
    | some t0 =>
      dsimp only
      by_cases hg : hasSub (("$\x7b").data) t0 = true
      · rw [if_pos hg, foldl_addPh_all_eq u _ _ (hall hty t0 htc),
          if_pos (Or.inl (by simp))]
      · rw [if_neg hg]
  · rw [if_neg hty]

theorem extractStep_trig (u : Str) (c : FigmaNode)
    (hall : c.ty = ("TEXT").data → ∀ t, c.textContent = some t →
      ∀ x ∈ Converter.phScan t, x = u)
    (ht : trig u c) : extractStep [] c = [u] := by
  obtain ⟨hty, t0, htc, hg, hu⟩ := ht
  unfold extractStep
  rw [if_pos hty]
  rw [htc]
  dsimp only
  rw [if_pos hg, foldl_addPh_all_eq u _ _ (hall hty t0 htc)]
  have hne : Converter.phScan t0 ≠ [] := by
    intro h0; rw [h0] at hu; simp at hu
  rw [if_neg (by simp [hne])]
  rfl

theorem foldl_extractStep (u : Str) (cs : List FigmaNode)
    (H1 : ∀ c ∈ cs, c.ty = ("TEXT").data → ∀ t, c.textContent = some t →
      ∀ x ∈ Converter.phScan t, x = u) :
    ∀ acc : List Str, (acc = [] ∨ acc = [u]) →
      (cs.foldl extractStep acc = [] ∨ cs.foldl extractStep acc = [u]) ∧
      (acc = [u] → cs.foldl extractStep acc = [u]) ∧
      ((∃ c ∈ cs, trig u c) → cs.foldl extractStep acc = [u]) := by
  induction cs with
  | nil =>
    intro acc hacc
    refine ⟨hacc, fun h => by simpa using h, ?_⟩
    rintro ⟨c, hc, -⟩
    simp at hc
  | cons c t ih =>
    intro acc hacc
    have hallc := H1 c (by simp)
    have H1t : ∀ c' ∈ t, c'.ty = ("TEXT").data → ∀ s, c'.textContent = some s →
        ∀ x ∈ Converter.phScan s, x = u :=
      fun c' hc' => H1 c' (by simp [hc'])
    have ih' := ih H1t
    have hacc' : extractStep acc c = [] ∨ extractStep acc c = [u] :=
      extractStep_pres u c acc hallc hacc
    simp only [List.foldl_cons]
    refine ⟨(ih' _ hacc').1, ?_, ?_⟩
    · intro h
      subst h
      exact (ih' _ hacc').2.1 (extractStep_keep u c hallc)
    · rintro ⟨c', hc', htr⟩
      rcases List.mem_cons.mp hc' with rfl | hc'tl
      · have hstep : extractStep acc c' = [u] := by
          rcases hacc with rfl | rfl
          · exact extractStep_trig u c' hallc htr
          · exact extractStep_keep u c' hallc
        rw [hstep] at hacc' ⊢
        exact (ih' [u] hacc').2.1 rfl
      · exact (ih' _ hacc').2.2 ⟨c', hc'tl, htr⟩

/-- **C2 (amended).**  For a node whose direct TEXT children carry no
placeholder other than `userName` and at least one of whose direct TEXT
children has `textContent` exactly `"Hello, ${userName}"`: prop
extraction yields `templateInputs = ["userName"]`, and each renderer
emits an optional input named `userName` — React as
`userName?: string | number;` (string/number typed), Vue as
`userName: String,` (String typed), Svelte as `export let userName;`
(untyped). -/
theorem c2_placeholder_roundtrip (n : FigmaNode) (cs : List FigmaNode)
    (hch : n.children = some cs)
    (H1 : ∀ c ∈ cs, c.ty = ("TEXT").data → ∀ t, c.textContent = some t →
      ∀ x ∈ Converter.phScan t, x = ("userName").data)
    (H2 : ∃ c ∈ cs, c.ty = ("TEXT").data ∧
      c.textContent = some (("Hello, $\x7buserName\x7d").data)) :
    Converter.extractPropsFromNode n = [("userName").data] ∧
    hasSub (("userName?: string | number;").data)
      (Converter.generateReactComponent (Converter.toPascalCase n.name) n
        (Converter.extractPropsFromNode n)) = true ∧
    hasSub (("userName: String,").data)
      (Converter.generateVueComponent (Converter.toPascalCase n.name) n
        (Converter.extractPropsFromNode n)) = true ∧
    hasSub (("export let userName;").data)
      (Converter.generateSvelteComponent (Converter.toPascalCase n.name) n
        (Converter.extractPropsFromNode n)) = true := by
  have hext : Converter.extractPropsFromNode n = [("userName").data] := by
    unfold Converter.extractPropsFromNode
    rw [hch]
    show cs.foldl extractStep [] = [("userName").data]
    refine (foldl_extractStep (("userName").data) cs H1 [] (Or.inl rfl)).2.2 ?_
    obtain ⟨c, hcm, hty, htc⟩ := H2
    refine ⟨c, hcm, hty, ("Hello, $\x7buserName\x7d").data, htc, by decide,
      by decide⟩
  rw [hext]
  refine ⟨rfl, ?_, ?_, ?_⟩
  · simp only [Converter.generateReactComponent]
    iterate 15 apply hasSub_append_left
    apply hasSub_append_right
    decide
  · simp only [Converter.generateVueComponent]
    apply hasSub_append_left
    apply hasSub_append_right
    decide
  · simp only [Converter.generateSvelteComponent]
    iterate 7 apply hasSub_append_left
    apply hasSub_append_right
    decide

/-- **C2, counterexample to the claim as stated.**  For a node with the
TEXT child `"Hello, ${userName}"`, extraction does yield `userName`,
but the Svelte renderer emits the input as the *untyped*
`export let userName;` — its output contains no `string`/`number` (or
any) type annotation, so the input is not "string/number typed" in
every dialect. -/
theorem c2_counterexample :
    Converter.extractPropsFromNode cardNode = [("userName").data] ∧
    hasSub (("export let userName;").data)
      (Converter.generateSvelteComponent
        (Converter.toPascalCase cardNode.name) cardNode
        (Converter.extractPropsFromNode cardNode)) = true ∧
    hasSub (("string").data)
      (Converter.generateSvelteComponent
        (Converter.toPascalCase cardNode.name) cardNode
        (Converter.extractPropsFromNode cardNode)) = false ∧
    hasSub (("number").data)
      (Converter.generateSvelteComponent
        (Converter.toPascalCase cardNode.name) cardNode
        (Converter.extractPropsFromNode cardNode)) = false ∧
    hasSub (("userName:").data)
      (Converter.generateSvelteComponent
        (Converter.toPascalCase cardNode.name) cardNode
        (Converter.extractPropsFromNode cardNode)) = false ∧
    hasSub (("userName?").data)
      (Converter.generateSvelteComponent
        (Converter.toPascalCase cardNode.name) cardNode
        (Converter.extractPropsFromNode cardNode)) = false := by
  refine ⟨rfl, ?_, ?_, ?_, ?_, ?_⟩ <;> decide

theorem c2_witness :
    cardNode.children = some [helloChild] ∧
    (Converter.extractPropsFromNode cardNode = [("userName").data] ∧
    hasSub (("userName?: string | number;").data)
      (Converter.generateReactComponent
        (Converter.toPascalCase cardNode.name) cardNode
        (Converter.extractPropsFromNode cardNode)) = true ∧
    hasSub (("userName: String,").data)
      (Converter.generateVueComponent
        (Converter.toPascalCase cardNode.name) cardNode
        (Converter.extractPropsFromNode cardNode)) = true ∧
    hasSub (("export let userName;").data)
      (Converter.generateSvelteComponent
        (Converter.toPascalCase cardNode.name) cardNode
        (Converter.extractPropsFromNode cardNode)) = true) := by
  have H1 : ∀ c ∈ [helloChild], c.ty = ("TEXT").data → ∀ t,
      c.textContent = some t → ∀ x ∈ Converter.phScan t,
      x = ("userName").data := by
    intro c hc hty t ht x hx
    rcases List.mem_singleton.mp hc with rfl
    have hteq : some (("Hello, $\x7buserName\x7d").data : Str) = some t := ht
    have ht' : t = ("Hello, $\x7buserName\x7d").data :=
      (Option.some.injEq _ _ ▸ hteq).symm
    subst ht'
    revert hx
    revert x
    decide
  exact ⟨rfl, c2_placeholder_roundtrip cardNode [helloChild] rfl H1
    ⟨helloChild, by simp, rfl, rfl⟩⟩
